import Mathlib

/-!
Verification of the kanapy IKC (indexed k-mer count) reader and k-mer
utilities, shallowly embedded from `src/io/ikc.py` and `src/util/kmer.py`.

The file is modelled as a list of bytes (`List Nat`, each element < 256 in
every concrete file used here).  A memory-mapped file handle is modelled as
the byte list plus an explicit cursor position; `mmap.read` clamps at end of
file and `mmap.seek` past the end raises, as in Python.  Each distinct
`RuntimeError` / `KeyError` raise site in the source is modelled by a
distinct constructor of `IKCError`.
-/

set_option maxRecDepth 100000

/-- Distinct failure sites of the reader and the k-mer utility. -/
inductive IKCError where
  /-- `get_header`: magic bytes mismatch. -/
  | badMagic
  /-- `get_header`: file version is not 1. -/
  | unsupportedVersion
  /-- `get_ikc_header_v1`: one of the 7 reserved bytes is non-zero. -/
  | reservedNonZero
  /-- `mmap.read_byte` at end of file raises `ValueError`. -/
  | readByteOutOfRange
  /-- `get_ikc_header_v1`: minimizer size outside 1..15. -/
  | invalidMinimizerSize
  /-- `get_ikc_header_v1`: k-mer size below 1. -/
  | invalidKSize
  /-- `KmerUtil.__init__`: non-zero minimizer mask. -/
  | unsupportedMask
  /-- `IKCReader.__read_index`: `offset_index == offset_meta`. -/
  | emptyIndex
  /-- `IKCReader.__read_index`: first index record does not point at `offset_data`. -/
  | indexMisaligned
  /-- `IKCReader.__read_index`: offset not strictly between previous offset and `offset_meta`. -/
  | indexOutOfBounds
  /-- `IKCReader.__read_index`: group length not a multiple of the record size. -/
  | groupSizeMisaligned
  /-- `IKCReader.__read_index`: minimizer already present in the index dict. -/
  | duplicateMinimizer
  /-- `IKCReader.__read_index` line 252: `KeyError` when `__last_min` is absent
  from `__min_index`. -/
  | cacheSeedMissing
  /-- `mmap.seek` beyond the end of the mapping raises `ValueError`. -/
  | seekOutOfRange
  /-- `KmerUtil.minimizer`: no minimizer size configured. -/
  | minimizerNotConfigured
  /-- `KmerUtil.to_kmer`: string length differs from `k_size`. -/
  | lengthMismatch
  /-- `KmerUtil.BASE_TO_INT` lookup: `KeyError` on a non-ACGT character. -/
  | invalidBase
  /-- Guard for the structural-recursion fuel of loops; unreachable from the
  entry points, which always supply sufficient fuel. -/
  | fuelExhausted
deriving DecidableEq, Repr

/-! ## Memory-mapped file primitives -/

/-- `mmap.read`: bytes from `pos`, clamped at end of file. -/
def readBytes (file : List Nat) (pos n : Nat) : List Nat :=
  (file.drop pos).take n

/-- Cursor position after `mmap.read` of (at most) `n` bytes from `pos`. -/
def readAdvance (file : List Nat) (pos n : Nat) : Nat :=
  pos + (readBytes file pos n).length

/-- `mmap.read_byte`: one byte, raising `ValueError` at end of file. -/
def readByte (file : List Nat) (pos : Nat) : Except IKCError (Nat × Nat) :=
  match (file.drop pos).take 1 with
  | [b] => .ok (b, pos + 1)
  | _ => .error .readByteOutOfRange

/-- `mmap.seek`: absolute positioning; raises `ValueError` past end of file. -/
def seekTo (file : List Nat) (p : Nat) : Except IKCError Nat :=
  if p ≤ file.length then .ok p else .error .seekOutOfRange

/-- `mmap.seek` at an integer position (raises on a negative position too). -/
def seekToInt (file : List Nat) (p : Int) : Except IKCError Nat :=
  if 0 ≤ p ∧ p ≤ (file.length : Int) then .ok p.toNat else .error .seekOutOfRange

/-- Big-endian unsigned value of a byte string (`int.from_bytes(..., 'big')`). -/
def beNat (bs : List Nat) : Nat :=
  bs.foldl (fun a b => a * 256 + b) 0

/-- Big-endian two's-complement value of a byte string
(`int.from_bytes(..., 'big', signed=True)`); the sign bit is taken from the
actual length of the byte string, as in Python. -/
def beInt (bs : List Nat) : Int :=
  let u := beNat bs
  if u ≥ 2 ^ (8 * bs.length - 1) ∧ bs.length > 0 then (u : Int) - 2 ^ (8 * bs.length)
  else (u : Int)

/-- `get_int_field(mmap_file, n_bytes)` (signed default): value and new position. -/
def getIntField (file : List Nat) (pos n : Nat) : Int × Nat :=
  (beInt (readBytes file pos n), readAdvance file pos n)

/-- `get_int_field(mmap_file, n_bytes, signed=False)`: value and new position. -/
def getUIntField (file : List Nat) (pos n : Nat) : Nat × Nat :=
  (beNat (readBytes file pos n), readAdvance file pos n)

/-! ## KmerUtil (`src/util/kmer.py`)

The utility's derived constants are pure functions of the configured sizes.
All sites that use them have validated `k_size ≥ 1`, where the Python integer
arithmetic agrees with truncated `Nat` arithmetic. -/

/-- Mask for the k-mer part of an integer: `~(~0 << (k_size * 2))`. -/
def kMask (k_size : Nat) : Nat := 2 ^ (2 * k_size) - 1

/-- 32-bit word size of k-mers: `((k_size - 1) // 16) + 1`. -/
def wordSize (k_size : Nat) : Nat := (k_size - 1) / 16 + 1

/-- Bytes per k-mer: `(k_size - 1) // 4 + 1`. -/
def wordSizeBytes (k_size : Nat) : Nat := (k_size - 1) / 4 + 1

/-- `KmerUtil.BASE_TO_INT`: two-bit code of a base character, `none` for the
dict `KeyError` on any other character. -/
def BASE_TO_INT (c : Char) : Option Nat :=
  match c with
  | 'A' => some 0 | 'C' => some 1 | 'G' => some 2 | 'T' => some 3
  | 'a' => some 0 | 'c' => some 1 | 'g' => some 2 | 't' => some 3
  | _ => none

/-- `KmerUtil.INT_TO_BASE`: base character of a two-bit code ('X' is the
source's own placeholder character; the index is always < 4 at use sites). -/
def INT_TO_BASE (n : Nat) : Char :=
  match n with
  | 0 => 'A' | 1 => 'C' | 2 => 'G' | 3 => 'T' | _ => 'X'

/-- Loop of `KmerUtil.to_kmer`: `kmer |= BASE_TO_INT[ch]; kmer <<= 2` per
character, failing on a non-ACGT character. -/
def toKmerAux : List Char → Nat → Except IKCError Nat
  | [], kmer => .ok (kmer >>> 2)
  | c :: cs, kmer =>
    match BASE_TO_INT c with
    | none => .error .invalidBase
    | some v => toKmerAux cs ((kmer ||| v) <<< 2)

/-- `KmerUtil.to_kmer`: string to packed k-mer, failing if the length differs
from `k_size`. -/
def to_kmer (k_size : Nat) (s : List Char) : Except IKCError Nat :=
  if s.length ≠ k_size then .error .lengthMismatch
  else toKmerAux s 0

/-- Loop of `KmerUtil.to_string`, carrying the running mask and shift. -/
def toStringAux (kmer : Nat) : Nat → Nat → Nat → List Char
  | 0, _, _ => []
  | cnt + 1, mask, shift =>
    INT_TO_BASE ((kmer &&& mask) >>> shift) :: toStringAux kmer cnt (mask >>> 2) (shift - 2)

/-- `KmerUtil.to_string`: packed k-mer to a base string of `k_size` characters. -/
def to_string (k_size kmer : Nat) : List Char :=
  toStringAux kmer k_size (kMask k_size) (2 * k_size - 2)

/-- Loop of `KmerUtil.rev_complement`:
`rev |= (kmer & 3) ^ 3; rev <<= 2; kmer >>= 2`, `k_size` times. -/
def revComplementAux : Nat → Nat → Nat → Nat
  | 0, rev, _ => rev
  | cnt + 1, rev, kmer => revComplementAux cnt ((rev ||| ((kmer &&& 3) ^^^ 3)) <<< 2) (kmer >>> 2)

/-- `KmerUtil.rev_complement`. -/
def rev_complement (k_size kmer : Nat) : Nat :=
  revComplementAux k_size 0 kmer >>> 2

/-- Loop of `KmerUtil.minimizer` over the remaining sub-k-mers: shift the
k-mer two bits, extract a substring and fold its value and the value of its
reverse complement into the running minimum. -/
def minimizerLoop (k_min_size : Nat) : Nat → Nat → Nat → Nat
  | 0, _, m => m
  | cnt + 1, kmer, m =>
    let kmer' := kmer >>> 2
    let nk := kmer' &&& kMask k_min_size
    let nr := rev_complement k_min_size nk
    let m1 := if nk < m then nk else m
    let m2 := if nr < m1 then nr else m1
    minimizerLoop k_min_size cnt kmer' m2

/-- `KmerUtil.minimizer`: least of all sub-k-mers of length `k_min_size` and
their reverse complements; error when no minimizer size is configured.  The
loop runs `sub_per_kmer - 1 = k_size - k_min_size` times. -/
def minimizer (k_size k_min_size : Nat) (kmer : Nat) : Except IKCError Nat :=
  if k_min_size = 0 then .error .minimizerNotConfigured
  else
    let m0 := kmer &&& kMask k_min_size
    let r0 := rev_complement k_min_size m0
    let m1 := if r0 < m0 then r0 else m0
    .ok (minimizerLoop k_min_size (k_size - k_min_size) kmer m1)

/-! ## Header parsing (`src/io/ikc.py`) -/

/-- Version 1 IKC header record.  `k_size` and `k_min_size` are stored after
validation (`k_size ≥ 1`, `0 < k_min_size < 16`), so `Nat` fields agree with
the Python integers. -/
structure IKCHeaderV1 where
  k_size : Nat
  k_min_size : Nat
  k_min_mask : Int
  offset_data : Nat
  offset_index : Nat
  offset_meta : Nat
  offset_eof : Nat
  id_string : List Nat
deriving DecidableEq, Repr

/-- Reserved-byte loop of `get_ikc_header_v1`: `cnt` bytes, each of which must
be zero; returns the position after them. -/
def readReserved (file : List Nat) : Nat → Nat → Except IKCError Nat
  | pos, 0 => .ok pos
  | pos, cnt + 1 =>
    match readByte file pos with
    | .error e => .error e
    | .ok (b, pos') =>
      if b ≠ 0 then .error .reservedNonZero
      else readReserved file pos' cnt

/-- Field-reading part of `get_ikc_header_v1`, after the reserved bytes.
Building the header also builds its `KmerUtil`, which rejects a non-zero
minimizer mask. -/
def get_ikc_header_v1_fields (file : List Nat) (pos : Nat) : Except IKCError IKCHeaderV1 :=
    let r1 := getIntField file pos 1
    let k_min_size := r1.1
    if ¬ (0 < k_min_size ∧ k_min_size < 16) then .error .invalidMinimizerSize
    else
      let r2 := getIntField file r1.2 4
      let k_size := r2.1
      if k_size < 1 then .error .invalidKSize
      else
        let r3 := getIntField file r2.2 4
        let k_min_mask := r3.1
        let r4 := getUIntField file r3.2 8
        let offset_index := r4.1
        let r5 := getUIntField file r4.2 8
        let offset_meta := r5.1
        let idBytes := readBytes file r5.2 32
        let offset_data := readAdvance file r5.2 32
        let offset_eof := file.length
        if k_min_mask ≠ 0 then .error .unsupportedMask
        else .ok {
          k_size := k_size.toNat
          k_min_size := k_min_size.toNat
          k_min_mask := k_min_mask
          offset_data := offset_data
          offset_index := offset_index
          offset_meta := offset_meta
          offset_eof := offset_eof
          id_string := idBytes.takeWhile (· ≠ 0) }

/-- `get_ikc_header_v1`, starting at `pos` (just after magic and version):
the reserved-byte check followed by the field reads. -/
def get_ikc_header_v1 (file : List Nat) (pos : Nat) : Except IKCError IKCHeaderV1 :=
  match readReserved file pos 7 with
  | .error e => .error e
  | .ok pos => get_ikc_header_v1_fields file pos

/-- The 15 magic bytes `b"Idx_Kmer_Count\0"`. -/
def ikcMagic : List Nat :=
  [0x49, 0x64, 0x78, 0x5F, 0x4B, 0x6D, 0x65, 0x72, 0x5F, 0x43, 0x6F, 0x75, 0x6E, 0x74, 0x00]

/-- `get_header`: magic check, version check, then the version 1 parser. -/
def get_header (file : List Nat) : Except IKCError IKCHeaderV1 :=
  let magic := readBytes file 0 15
  let pos := readAdvance file 0 15
  if magic ≠ ikcMagic then .error .badMagic
  else
    let rv := getIntField file pos 1
    if rv.1 ≠ 1 then .error .unsupportedVersion
    else get_ikc_header_v1 file rv.2

/-! ## IKCReader (`src/io/ikc.py`) -/

/-- In-memory minimizer index: association list from minimizer to
`(offset, record count)` in insertion order, modelling the Python dict. -/
def mapLookup : List (Int × Nat × Nat) → Int → Option (Nat × Nat)
  | [], _ => none
  | (k, v) :: rest, key => if key = k then some v else mapLookup rest key

/-- State of an open `IKCReader`: the mapped file, the header offsets and
sizes captured by `__init__`, the in-memory index and the single-slot
last-minimizer cache. -/
structure IKCReader where
  file : List Nat
  k_size : Nat
  k_min_size : Nat
  offset_data : Nat
  offset_index : Nat
  offset_meta : Nat
  offset_eof : Nat
  /-- `self.__kmer_bytes = self.__kmer_util.word_size * 4`. -/
  kmer_bytes : Nat
  /-- `self.__count_bytes = 4`. -/
  count_bytes : Nat
  min_index : List (Int × Nat × Nat)
  last_min : Int
  last_min_offset : Nat
  last_min_n : Nat
deriving DecidableEq, Repr

/-- While-loop of `IKCReader.__read_index` reading the remaining index
records.  The structural fuel is never exhausted from `read_index`, which
supplies `offset_meta + 1`: every continuing iteration strictly increases
`offset` while keeping it below `offset_meta`. -/
def readIndexLoop (file : List Nat) (endLoc recordSize : Nat) :
    Nat → Nat → Int → Nat → List (Int × Nat × Nat) → Nat →
    Except IKCError (List (Int × Nat × Nat) × Nat)
  | fuel, pos, minz, offset, map, minCount =>
    if pos < endLoc then
      let rm := getUIntField file pos 4
      let nextMin := rm.1
      let ro := getUIntField file rm.2 8
      let nextOff := ro.1
      if offset < nextOff ∧ nextOff < endLoc then
        if (nextOff - offset) % recordSize ≠ 0 then .error .groupSizeMisaligned
        else if (mapLookup map minz).isSome then .error .duplicateMinimizer
        else
          match fuel with
          | 0 => .error .fuelExhausted
          | fuel' + 1 =>
            readIndexLoop file endLoc recordSize fuel' ro.2 (nextMin : Int) nextOff
              (map ++ [(minz, offset, (nextOff - offset) / recordSize)]) (minCount + 1)
      else .error .indexOutOfBounds
    else .ok (map, pos)

/-- `IKCReader.__read_index`: build the in-memory index and seed the
last-minimizer cache.  Returns the index together with the seeded
`(last_min, last_min_offset, last_min_n)`. -/
def read_index (file : List Nat) (offsetData offsetIndex offsetMeta recordSize : Nat) :
    Except IKCError (List (Int × Nat × Nat) × Int × Nat × Nat) :=
  if offsetIndex = offsetMeta then .error .emptyIndex
  else
    match seekTo file offsetIndex with
    | .error e => .error e
    | .ok pos =>
      let rm := getIntField file pos 4
      let minz := rm.1
      let ro := getIntField file rm.2 8
      let offset := ro.1
      if offset ≠ (offsetData : Int) then .error .indexMisaligned
      else
        let lastMin := minz
        match readIndexLoop file offsetMeta recordSize (offsetMeta + 1) ro.2 minz offset.toNat [] 1 with
        | .error e => .error e
        | .ok (map, _) =>
          match mapLookup map lastMin with
          | some (o, n) => .ok (map, lastMin, o, n)
          | none => .error .cacheSeedMissing

/-- `IKCReader.__init__`: parse the header, capture offsets and record
widths, and build the index. -/
def openIKC (file : List Nat) : Except IKCError IKCReader :=
  match get_header file with
  | .error e => .error e
  | .ok hdr =>
    let kmerBytes := wordSize hdr.k_size * 4
    let recordSize := wordSizeBytes hdr.k_size + 4
    match read_index file hdr.offset_data hdr.offset_index hdr.offset_meta recordSize with
    | .error e => .error e
    | .ok (map, lastMin, lastOff, lastN) =>
      .ok {
        file := file
        k_size := hdr.k_size
        k_min_size := hdr.k_min_size
        offset_data := hdr.offset_data
        offset_index := hdr.offset_index
        offset_meta := hdr.offset_meta
        offset_eof := hdr.offset_eof
        kmer_bytes := kmerBytes
        count_bytes := 4
        min_index := map
        last_min := lastMin
        last_min_offset := lastOff
        last_min_n := lastN }

/-- Binary-search loop of `IKCReader._search` with inclusive integer bounds.
The fuel `n + 2` supplied by `search` is never exhausted: the gap
`last - first` shrinks every iteration. -/
def searchLoop (file : List Nat) (kmerBytes countBytes : Nat) (kmer offset : Nat) :
    Nat → Int → Int → Except IKCError Int
  | fuel, first, last =>
    if first ≤ last then
      let recordBytes := kmerBytes + countBytes
      let mid := (first + last).ediv 2
      match seekToInt file ((offset : Int) + mid * (recordBytes : Int)) with
      | .error e => .error e
      | .ok pos =>
        let rk := getUIntField file pos kmerBytes
        let nextKmer := rk.1
        if nextKmer = kmer then .ok (getIntField file rk.2 countBytes).1
        else
          match fuel with
          | 0 => .error .fuelExhausted
          | fuel' + 1 =>
            if kmer > nextKmer then searchLoop file kmerBytes countBytes kmer offset fuel' (mid + 1) last
            else searchLoop file kmerBytes countBytes kmer offset fuel' first (mid - 1)
    else .ok 0

/-- `IKCReader._search`: binary search for `kmer` in the minimizer group of
`n` records at byte `offset`; the count on a match, `0` otherwise. -/
def search (file : List Nat) (kmerBytes countBytes : Nat) (kmer offset n : Nat) :
    Except IKCError Int :=
  searchLoop file kmerBytes countBytes kmer offset (n + 2) 0 (n : Int)

/-- `IKCReader.get`: cached-group search first; on a miss compute the
minimizer, return 0 when it equals the cached one or is absent from the
index, otherwise move the cache to the new group and search it.  Returns the
count together with the reader state after the call. -/
def IKCReader.get (r : IKCReader) (kmer : Nat) : Except IKCError (Int × IKCReader) :=
  match search r.file r.kmer_bytes r.count_bytes kmer r.last_min_offset r.last_min_n with
  | .error e => .error e
  | .ok count =>
    if count > 0 then .ok (count, r)
    else
      match minimizer r.k_size r.k_min_size kmer with
      | .error e => .error e
      | .ok minz =>
        if (minz : Int) = r.last_min then .ok (0, r)
        else
          match mapLookup r.min_index (minz : Int) with
          | none => .ok (0, r)
          | some (o, n) =>
            let r' := { r with last_min := (minz : Int), last_min_offset := o, last_min_n := n }
            match search r'.file r'.kmer_bytes r'.count_bytes kmer o n with
            | .error e => .error e
            | .ok c => .ok (c, r')

/-! Model of `IKCReader.iter_kmer_order`.  The per-group cursor dict is an
association list in insertion order, each entry carrying the current
`(kmer, count, offset, last_offset)` of its group. -/

/-- One cursor of `iter_kmer_order`: minimizer key with current record value,
current offset and the group's `last_offset`. -/
structure IterCursor where
  minz : Int
  kmer : Nat
  count : Int
  offset : Nat
  lastOffset : Nat
deriving DecidableEq, Repr

/-- Initialisation loop of `iter_kmer_order`: seek to each group's offset and
load its first record; `last_offset = offset + (n_elements + 1) * record_bytes`
as in the source. -/
def iterKmerInit (file : List Nat) (recordBytes kmerBytes countBytes : Nat) :
    List (Int × Nat × Nat) → Except IKCError (List IterCursor)
  | [] => .ok []
  | (minz, offset, nElements) :: rest =>
    let lastOffset := offset + (nElements + 1) * recordBytes
    match seekTo file offset with
    | .error e => .error e
    | .ok pos =>
      let rk := getUIntField file pos kmerBytes
      let count := (getIntField file rk.2 countBytes).1
      match iterKmerInit file recordBytes kmerBytes countBytes rest with
      | .error e => .error e
      | .ok cursors => .ok ({ minz := minz, kmer := rk.1, count := count,
                              offset := offset, lastOffset := lastOffset } :: cursors)

/-- Minimum scan of `iter_kmer_order`: the first cursor holding the strictly
smallest current k-mer, `none` when no cursor is live. -/
def iterFindMin (cursors : List IterCursor) : Option IterCursor :=
  cursors.foldl
    (fun best c =>
      match best with
      | none => some c
      | some b => if c.kmer < b.kmer then some c else some b)
    none

/-- Replace the cursor keyed `minz` (dict update preserves position). -/
def iterUpdate (cursors : List IterCursor) (minz : Int) (c : IterCursor) : List IterCursor :=
  cursors.map (fun x => if x.minz = minz then c else x)

/-- Remove the cursor keyed `minz` (dict deletion preserves the order of the
remaining entries). -/
def iterRemove (cursors : List IterCursor) (minz : Int) : List IterCursor :=
  cursors.filter (fun x => x.minz ≠ minz)

/-- Main loop of `iter_kmer_order`: emit the current minimum, advance its
cursor (dropping it at `last_offset`), rescan for the next minimum.  The
fuel supplied by `iterKmerOrder` covers one iteration per loaded record. -/
def iterKmerLoop (file : List Nat) (recordBytes kmerBytes countBytes : Nat) :
    Nat → List IterCursor → Option IterCursor → List (Nat × Int) →
    Except IKCError (List (Nat × Int))
  | _, _, none, acc => .ok acc
  | 0, _, some _, _ => .error .fuelExhausted
  | fuel + 1, cursors, some cur, acc =>
    let offset' := cur.offset + recordBytes
    let step : Except IKCError (List IterCursor) :=
      if offset' < cur.lastOffset then
        match seekTo file offset' with
        | .error e => .error e
        | .ok pos =>
          let rk := getUIntField file pos kmerBytes
          let count := (getIntField file rk.2 countBytes).1
          .ok (iterUpdate cursors cur.minz
                { cur with kmer := rk.1, count := count, offset := offset' })
      else .ok (iterRemove cursors cur.minz)
    match step with
    | .error e => .error e
    | .ok cursors' =>
      iterKmerLoop file recordBytes kmerBytes countBytes fuel
        cursors' (iterFindMin cursors') (acc ++ [(cur.kmer, cur.count)])

/-- `IKCReader.iter_kmer_order`, collected into the list of yielded
`(kmer, count)` pairs. -/
def iterKmerOrder (r : IKCReader) : Except IKCError (List (Nat × Int)) :=
  let recordBytes := r.kmer_bytes + r.count_bytes
  match iterKmerInit r.file recordBytes r.kmer_bytes r.count_bytes r.min_index with
  | .error e => .error e
  | .ok cursors =>
    let fuel := (r.min_index.foldl (fun a e => a + e.2.2 + 1) 0) + 1
    iterKmerLoop r.file recordBytes r.kmer_bytes r.count_bytes fuel
      cursors (iterFindMin cursors) []

/-! ## Concrete IKC files -/

/-- A 96-byte IKC file with `k_size=4`, `k_min_size=2`, `offset_index=60`,
`offset_meta=96`: the serialized index sits inside the id-string / data bytes,
before `offset_data = 80`.  Its three index records are `(5, 80)`, `(7, 85)`,
`(9, 90)` with record size `5`, so `open` succeeds. -/
def exFileA : List Nat :=
  [0x49, 0x64, 0x78, 0x5F, 0x4B, 0x6D, 0x65, 0x72, 0x5F, 0x43, 0x6F, 0x75, 0x6E, 0x74, 0x00,
   1,
   0, 0, 0, 0, 0, 0, 0,
   2,
   0, 0, 0, 4,
   0, 0, 0, 0,
   0, 0, 0, 0, 0, 0, 0, 60,
   0, 0, 0, 0, 0, 0, 0, 96,
   0, 0, 0, 0, 0, 0, 0, 0, 0, 0, 0, 0,
   0, 0, 0, 5,
   0, 0, 0, 0, 0, 0, 0, 80,
   0, 0, 0, 7,
   0, 0, 0, 0,
   0, 0, 0, 85,
   0, 0, 0, 9,
   0, 0, 0, 0, 0, 0, 0, 90]

/-- A 140-byte well-formed IKC file with `k_size=16`, `k_min_size=2`
(record size 8 for both the index builder and the search); three
one-record minimizer groups at offsets 80, 88, 96 holding
`(1, 10)`, `(2, 20)`, `(5, 50)`, and three index records
`(1, 80)`, `(2, 88)`, `(3, 96)` at `offset_index=104`, `offset_meta=140`. -/
def c5file : List Nat :=
  [0x49, 0x64, 0x78, 0x5F, 0x4B, 0x6D, 0x65, 0x72, 0x5F, 0x43, 0x6F, 0x75, 0x6E, 0x74, 0x00,
   1,
   0, 0, 0, 0, 0, 0, 0,
   2,
   0, 0, 0, 16,
   0, 0, 0, 0,
   0, 0, 0, 0, 0, 0, 0, 104,
   0, 0, 0, 0, 0, 0, 0, 140,
   0, 0, 0, 0, 0, 0, 0, 0, 0, 0, 0, 0, 0, 0, 0, 0,
   0, 0, 0, 0, 0, 0, 0, 0, 0, 0, 0, 0, 0, 0, 0, 0,
   0, 0, 0, 1, 0, 0, 0, 10,
   0, 0, 0, 2, 0, 0, 0, 20,
   0, 0, 0, 5, 0, 0, 0, 50,
   0, 0, 0, 1, 0, 0, 0, 0, 0, 0, 0, 80,
   0, 0, 0, 2, 0, 0, 0, 0, 0, 0, 0, 88,
   0, 0, 0, 3, 0, 0, 0, 0, 0, 0, 0, 96]

/-- The spec's hand-built minimal valid file: `k_size=4`, `k_min_size=2`, one
minimizer group of the two records `(0b00000000, 5)` and `(0b00000011, 9)`
(record size `ceil(4/4) + 4 = 5`), and a single index record `(0, 80)` at
`offset_index=90`, `offset_meta=102`. -/
def c2file : List Nat :=
  [0x49, 0x64, 0x78, 0x5F, 0x4B, 0x6D, 0x65, 0x72, 0x5F, 0x43, 0x6F, 0x75, 0x6E, 0x74, 0x00,
   1,
   0, 0, 0, 0, 0, 0, 0,
   2,
   0, 0, 0, 4,
   0, 0, 0, 0,
   0, 0, 0, 0, 0, 0, 0, 90,
   0, 0, 0, 0, 0, 0, 0, 102,
   0, 0, 0, 0, 0, 0, 0, 0, 0, 0, 0, 0, 0, 0, 0, 0,
   0, 0, 0, 0, 0, 0, 0, 0, 0, 0, 0, 0, 0, 0, 0, 0,
   0, 0, 0, 0, 5,
   3, 0, 0, 0, 9,
   0, 0, 0, 0,
   0, 0, 0, 0, 0, 0, 0, 80]

/-- A 16-byte data region: one minimizer group of a single 8-byte record
`(kmer=0, count=5)` at offset 0, followed by 8 unrelated bytes encoding
`(kmer=3, count=7)`. -/
def c4file : List Nat :=
  [0, 0, 0, 0, 0, 0, 0, 5,
   0, 0, 0, 3, 0, 0, 0, 7]

/-- A reader value for fallback branches of concrete extractions. -/
def defaultReader : IKCReader :=
  { file := [], k_size := 0, k_min_size := 0, offset_data := 0, offset_index := 0,
    offset_meta := 0, offset_eof := 0, kmer_bytes := 0, count_bytes := 0,
    min_index := [], last_min := 0, last_min_offset := 0, last_min_n := 0 }

/-- The reader produced by opening `exFileA`. -/
def rdrA : IKCReader :=
  match openIKC exFileA with
  | .ok r => r
  | .error _ => defaultReader

/-- A 24-byte all-zero prefix: reserved bytes at 16..22 are zero and the
`k_min_size` byte at offset 23 is `0`. -/
def hdr0File : List Nat := List.replicate 24 0

/-- The single-slot cache of a reader is consistent with its in-memory index:
the cached minimizer is a key of the mapping and the cached offset/count pair
is that key's entry. -/
def cacheConsistent (r : IKCReader) : Prop :=
  mapLookup r.min_index r.last_min = some (r.last_min_offset, r.last_min_n)

/-- Candidate value contributed by one substring: the lesser of the substring
and its reverse complement. -/
def subCand (km x : Nat) : Nat :=
  Nat.min (x &&& kMask km) (rev_complement km (x &&& kMask km))

/-- Modelled from the spec: the minimum, under raw integer ordering, over
every overlapping substring of length `k_min_size` within the k-mer (there
are `k_size - k_min_size + 1` of them) and each substring's reverse
complement. -/
def minimizerSpec (k km kmer : Nat) : Nat :=
  (((List.range (k - km + 1)).flatMap (fun i =>
      let s := (kmer >>> (2 * i)) &&& kMask km
      [s, rev_complement km s])).min?).getD 0

/-- Horner value of a base string: the integer `to_kmer` produces on valid
input, written as a plain fold for the proofs. -/
def kmerVal : List Char → Nat → Nat
  | [], a => a
  | c :: cs, a => kmerVal cs (4 * a + (BASE_TO_INT c).getD 0)

/-! ## C1 -/

/-- C1: refuted on the code.  Opening `c5file`, whose index region holds 3
valid records, succeeds but leaves only 2 entries in the in-memory mapping:
the final index record's minimizer 3 is never inserted (`__read_index` only
writes an entry for a minimizer once the *next* record is read, and no
insertion happens after the loop). -/
theorem c1_last_index_entry_never_inserted :
    (openIKC c5file).toOption.map
      (fun r => (r.min_index.length, mapLookup r.min_index 3)) = some (2, none) := by
  rfl

/-! ## C2 -/

/-- C2: refuted on the code.  Opening the spec's hand-built minimal file
fails with the modelled `KeyError` of `__read_index` line 252: with a single
index record the while loop never runs, `__min_index` stays empty, and
seeding the cache from `__min_index[self.__last_min]` raises. -/
theorem c2_minimal_file_open_crashes :
    openIKC c2file = .error .cacheSeedMissing := by
  rfl

/-! ## C3 -/

/-- C3: refuted on the code.  For `k_size = 4` the index builder validates
group sizes with `word_size_bytes = ceil(4/4) = 1` byte per k-mer, but the
reader's `__kmer_bytes`, used by `_search` and both iterators, is
`word_size * 4 = 4` bytes. -/
theorem c3_kmer_width_mismatch :
    (openIKC exFileA).toOption.map
      (fun r => (r.kmer_bytes, wordSizeBytes r.k_size)) = some (4, 1) := by
  rfl

/-! ## C4 -/

/-- C4: refuted on the code.  Searching the one-record group at offset 0 of
`c4file` for the absent k-mer 3 initialises `last = n` instead of `n - 1`,
inspects record index 1 (one past the group's end) and returns the count 7
found there instead of 0. -/
theorem c4_search_reads_past_group_end :
    search c4file 4 4 3 0 1 = .ok 7 := by
  rfl

/-! ## C5 -/

/-- C5: refuted on the code.  `iter_kmer_order` over the opened `c5file`
yields 4 pairs although the index mapping's groups hold 2 records in total
(and the file's groups 3): each cursor's `last_offset` is off by one record,
so every group is read one record past its end, and the pair `(2, 20)` is
emitted twice — the output is not strictly ascending either. -/
theorem c5_iter_kmer_order_overruns_groups :
    (openIKC c5file).bind iterKmerOrder = .ok [(1, 10), (2, 20), (2, 20), (5, 50)] := by
  rfl

/-! ## C7 counterexample -/

/-- C7: refuted as stated.  `openIKC exFileA` succeeds although
`offset_data = 80 > 60 = offset_index`: nothing in header parsing or index
building orders `offset_data` against `offset_index`. -/
theorem c7_offset_chain_counterexample :
    (openIKC exFileA).toOption.map
      (fun r => decide (r.offset_data ≤ r.offset_index ∧ r.offset_index ≤ r.offset_meta ∧
        r.offset_meta ≤ r.offset_eof)) = some false := by
  rfl

/-! ## C6 -/

/-- Reading one byte below end of file yields that byte. -/
theorem readByte_eq_of_lt (f : List Nat) (pos : Nat) (h : pos < f.length) :
    readByte f pos = .ok (f.getD pos 0, pos + 1) := by
  have hg : f.getD pos 0 = f.get ⟨pos, h⟩ := by
    simp [List.getD_eq_getElem?_getD, List.getElem?_eq_getElem h]
  unfold readByte
  rw [List.drop_eq_getElem_cons h, hg]
  rfl

/-- The reserved-byte loop succeeds over in-range zero bytes, advancing by
`cnt`. -/
theorem readReserved_ok (f : List Nat) :
    ∀ (cnt pos : Nat), (∀ i, i < cnt → pos + i < f.length ∧ f.getD (pos + i) 0 = 0) →
      readReserved f pos cnt = .ok (pos + cnt)
  | 0, pos, _ => rfl
  | cnt + 1, pos, h => by
    have h0 := h 0 (Nat.succ_pos _)
    rw [readReserved, readByte_eq_of_lt f pos (by simpa using h0.1)]
    have hz : f.getD pos 0 = 0 := by simpa using h0.2
    simp only [hz, ne_eq, not_true_eq_false, if_false, reduceIte]
    rw [readReserved_ok f cnt (pos + 1) (fun i hi => by
      have hh := h (i + 1) (by omega)
      constructor
      · omega
      · have := hh.2
        rwa [show pos + 1 + i = pos + (i + 1) by omega])]
    rw [show pos + 1 + cnt = pos + (cnt + 1) by omega]

/-- One-byte read below end of file. -/
theorem readBytes_one (f : List Nat) (pos : Nat) (h : pos < f.length) :
    readBytes f pos 1 = [f.getD pos 0] := by
  have hg : f.getD pos 0 = f.get ⟨pos, h⟩ := by
    simp [List.getD_eq_getElem?_getD, List.getElem?_eq_getElem h]
  unfold readBytes
  rw [List.drop_eq_getElem_cons h, hg]
  rfl

/-- First component of a signed field read. -/
theorem getIntField_fst (f : List Nat) (pos n : Nat) :
    (getIntField f pos n).1 = beInt (readBytes f pos n) := rfl

/-- Second component of a signed field read. -/
theorem getIntField_snd (f : List Nat) (pos n : Nat) :
    (getIntField f pos n).2 = readAdvance f pos n := rfl

/-- First component of an unsigned field read. -/
theorem getUIntField_fst (f : List Nat) (pos n : Nat) :
    (getUIntField f pos n).1 = beNat (readBytes f pos n) := rfl

/-- Second component of an unsigned field read. -/
theorem getUIntField_snd (f : List Nat) (pos n : Nat) :
    (getUIntField f pos n).2 = readAdvance f pos n := rfl

/-- C6: confirmed.  Over any file whose 7 reserved bytes exist and are zero,
version 1 header parsing fails with the invalid-minimizer-size error exactly
when the 1-byte signed field read at offset 23 (the on-disk `k_min_size`) is
outside `0 < v < 16`; in particular `k_min_size = 0` is rejected. -/
theorem c6_invalid_minimizer_size_iff (f : List Nat)
    (hres : ∀ i, i < 23 → 16 ≤ i → i < f.length ∧ f.getD i 0 = 0) :
    get_ikc_header_v1 f 16 = .error .invalidMinimizerSize ↔
      ¬ (0 < (getIntField f 23 1).1 ∧ (getIntField f 23 1).1 < 16) := by
  unfold get_ikc_header_v1
  rw [readReserved_ok f 7 16 (fun i hi =>
    ⟨(hres (16 + i) (by omega) (by omega)).1, (hres (16 + i) (by omega) (by omega)).2⟩)]
  show get_ikc_header_v1_fields f 23 = _ ↔ _
  simp only [get_ikc_header_v1_fields]
  by_cases hv : 0 < (getIntField f 23 1).1 ∧ (getIntField f 23 1).1 < 16
  · rw [if_neg (not_not_intro hv)]
    constructor
    · intro hcontra
      exfalso
      split at hcontra
      · exact IKCError.noConfusion (Except.error.inj hcontra)
      · split at hcontra
        · exact IKCError.noConfusion (Except.error.inj hcontra)
        · exact Except.noConfusion hcontra
    · intro hneg
      exact absurd hv hneg
  · rw [if_pos hv]
    exact ⟨fun _ => hv, fun _ => rfl⟩

/-- Witness for C6 at a concrete file: the zero `k_min_size` byte is rejected
with the invalid-minimizer-size error. -/
theorem c6_invalid_minimizer_size_iff_witness :
    get_ikc_header_v1 hdr0File 16 = .error .invalidMinimizerSize :=
  (c6_invalid_minimizer_size_iff hdr0File (by decide)).mpr (by decide)

/-! ## C10 -/

/-- A successful `__read_index` returns a cache seed taken from the returned
mapping itself. -/
theorem read_index_cache (file : List Nat) (a b c d : Nat)
    (map : List (Int × Nat × Nat)) (lm : Int) (o n : Nat)
    (h : read_index file a b c d = .ok (map, lm, o, n)) :
    mapLookup map lm = some (o, n) := by
  simp only [read_index] at h
  split at h
  · exact Except.noConfusion h
  · split at h
    · exact Except.noConfusion h
    · split at h
      · exact Except.noConfusion h
      · split at h
        · exact Except.noConfusion h
        · split at h
          · rename_i heq
            injection h with h'
            injection h' with h1 h2
            injection h2 with h3 h4
            injection h4 with h5 h6
            subst h1; subst h3; subst h5; subst h6
            exact heq
          · exact Except.noConfusion h

/-- C10: confirmed.  After a successful `open` the cache is consistent with
the in-memory index, and every successful `get` preserves that consistency:
`get` only moves the cache to a minimizer looked up in the index mapping. -/
theorem c10_cache_coherent :
    (∀ (f : List Nat) (r : IKCReader), openIKC f = .ok r → cacheConsistent r) ∧
    (∀ (r : IKCReader) (kmer : Nat) (c : Int) (r' : IKCReader),
      cacheConsistent r → r.get kmer = .ok (c, r') → cacheConsistent r') := by
  constructor
  · intro f r h
    simp only [openIKC] at h
    split at h
    · exact Except.noConfusion h
    · split at h
      · exact Except.noConfusion h
      · rename_i hri
        injection h with h'
        subst h'
        exact read_index_cache _ _ _ _ _ _ _ _ _ hri
  · intro r kmer c r' hc h
    simp only [IKCReader.get] at h
    split at h
    · exact Except.noConfusion h
    · split at h
      · injection h with h'
        injection h' with h1 h2
        subst h2
        exact hc
      · split at h
        · exact Except.noConfusion h
        · split at h
          · injection h with h'
            injection h' with h1 h2
            subst h2
            exact hc
          · split at h
            · injection h with h'
              injection h' with h1 h2
              subst h2
              exact hc
            · rename_i hsome
              split at h
              · exact Except.noConfusion h
              · injection h with h'
                injection h' with h1 h2
                subst h2
                exact hsome

/-- Witness for C10 at `exFileA`: the cache is consistent after opening, and
after a `get` that hits the cached group. -/
theorem c10_cache_coherent_witness :
    cacheConsistent rdrA ∧ rdrA.get 85 = .ok (9, rdrA) ∧ cacheConsistent rdrA := by
  have h1 : openIKC exFileA = .ok rdrA := rfl
  have hc : cacheConsistent rdrA := c10_cache_coherent.1 exFileA rdrA h1
  have hg : rdrA.get 85 = .ok (9, rdrA) := rfl
  exact ⟨hc, hg, c10_cache_coherent.2 rdrA 85 9 rdrA hc hg⟩


/-! ## C7 amended -/

theorem readAdvance_le (f : List Nat) (pos n : Nat) (h : pos ≤ f.length) :
    readAdvance f pos n ≤ f.length := by
  unfold readAdvance readBytes
  simp only [List.length_take, List.length_drop]
  omega

theorem readAdvance_ge (f : List Nat) (pos n : Nat) : pos ≤ readAdvance f pos n :=
  Nat.le_add_right _ _

theorem seekTo_ok (f : List Nat) (p q : Nat) (h : seekTo f p = .ok q) :
    q = p ∧ p ≤ f.length := by
  unfold seekTo at h
  split at h
  · exact ⟨(Except.ok.inj h).symm, by assumption⟩
  · exact Except.noConfusion h

theorem readIndexLoop_ok_bounds (file : List Nat) (endLoc rs : Nat) :
    ∀ (fuel pos : Nat) (minz : Int) (offset : Nat) (map : List (Int × Nat × Nat)) (cnt : Nat)
      (map' : List (Int × Nat × Nat)) (pos' : Nat),
      readIndexLoop file endLoc rs fuel pos minz offset map cnt = .ok (map', pos') →
      pos ≤ file.length → endLoc ≤ pos' ∧ pos' ≤ file.length := by
  intro fuel
  induction fuel with
  | zero =>
    intro pos minz offset map cnt map' pos' h hp
    rw [readIndexLoop] at h
    simp only [] at h
    split at h
    · split at h
      · split at h
        · exact Except.noConfusion h
        · split at h
          · exact Except.noConfusion h
          · exact Except.noConfusion h
      · exact Except.noConfusion h
    · rename_i hge
      injection h with h'
      injection h' with h1 h2
      subst h2
      exact ⟨Nat.le_of_not_lt hge, hp⟩
  | succ fuel ih =>
    intro pos minz offset map cnt map' pos' h hp
    rw [readIndexLoop] at h
    simp only [] at h
    split at h
    · split at h
      · split at h
        · exact Except.noConfusion h
        · split at h
          · exact Except.noConfusion h
          · exact ih _ _ _ _ _ _ _ h
              (readAdvance_le _ _ _ (readAdvance_le _ _ _ hp))
      · exact Except.noConfusion h
    · rename_i hge
      injection h with h'
      injection h' with h1 h2
      subst h2
      exact ⟨Nat.le_of_not_lt hge, hp⟩

theorem readIndexLoop_ok_progress (file : List Nat) (endLoc rs : Nat)
    (fuel pos : Nat) (minz : Int) (offset : Nat) (map : List (Int × Nat × Nat)) (cnt : Nat)
    (map' : List (Int × Nat × Nat)) (pos' : Nat)
    (h : readIndexLoop file endLoc rs fuel pos minz offset map cnt = .ok (map', pos')) :
    map' = map ∨ (pos < endLoc ∧ offset < endLoc) := by
  rw [readIndexLoop] at h
  simp only [] at h
  split at h
  · rename_i hpos
    split at h
    · rename_i hb
      exact Or.inr ⟨hpos, Nat.lt_trans hb.1 hb.2⟩
    · exact Except.noConfusion h
  · injection h with h'
    injection h' with h1 h2
    exact Or.inl h1.symm

theorem read_index_ok_bounds (file : List Nat) (offsetData offsetIndex offsetMeta rs : Nat)
    (map : List (Int × Nat × Nat)) (lm : Int) (o n : Nat)
    (h : read_index file offsetData offsetIndex offsetMeta rs = .ok (map, lm, o, n)) :
    offsetData < offsetMeta ∧ offsetIndex < offsetMeta ∧ offsetMeta ≤ file.length := by
  simp only [read_index] at h
  split at h
  · exact Except.noConfusion h
  · split at h
    · exact Except.noConfusion h
    · rename_i posv hseek
      split at h
      · exact Except.noConfusion h
      · rename_i hoffeq
        split at h
        · exact Except.noConfusion h
        · rename_i mapv posv2 hloop
          split at h
          · rename_i ov nv hfound
            obtain ⟨hq, hle⟩ := seekTo_ok _ _ _ hseek
            rw [hq] at hloop hoffeq
            have hb := readIndexLoop_ok_bounds file offsetMeta rs _ _ _ _ _ _ _ _ hloop
              (readAdvance_le _ _ _ (readAdvance_le _ _ _ hle))
            have hprog := readIndexLoop_ok_progress file offsetMeta rs _ _ _ _ _ _ _ _ hloop
            have hmapne : mapv ≠ [] := by
              intro hnil
              rw [hnil] at hfound
              exact Option.noConfusion hfound
            rcases hprog with hsame | ⟨hposlt, hofflt⟩
            · exact absurd hsame hmapne
            · have heqq := not_not.mp hoffeq
              rw [heqq] at hofflt
              refine ⟨by omega, ?_, Nat.le_trans hb.1 hb.2⟩
              have hge : offsetIndex ≤ (getIntField file (getIntField file offsetIndex 4).2 8).2 :=
                Nat.le_trans (readAdvance_ge file offsetIndex 4)
                  (readAdvance_ge file (getIntField file offsetIndex 4).2 8)
              exact Nat.lt_of_le_of_lt hge hposlt
          · exact Except.noConfusion h

theorem get_header_eof (f : List Nat) (hdr : IKCHeaderV1)
    (h : get_header f = .ok hdr) : hdr.offset_eof = f.length := by
  simp only [get_header] at h
  split at h
  · exact Except.noConfusion h
  · split at h
    · exact Except.noConfusion h
    · simp only [get_ikc_header_v1] at h
      split at h
      · exact Except.noConfusion h
      · simp only [get_ikc_header_v1_fields] at h
        split at h
        · exact Except.noConfusion h
        · split at h
          · exact Except.noConfusion h
          · split at h
            · exact Except.noConfusion h
            · injection h with h'
              subst h'
              rfl

theorem c7_offset_chain_amended (f : List Nat) (r : IKCReader)
    (h : openIKC f = .ok r) :
    0 ≤ r.offset_data ∧ r.offset_data ≤ r.offset_meta ∧ r.offset_meta ≤ r.offset_eof ∧
      r.offset_index ≤ r.offset_meta := by
  simp only [openIKC] at h
  split at h
  · exact Except.noConfusion h
  · rename_i hdr hhdr
    split at h
    · exact Except.noConfusion h
    · rename_i hri
      injection h with h'
      subst h'
      have hb := read_index_ok_bounds _ _ _ _ _ _ _ _ _ hri
      have he := get_header_eof f hdr hhdr
      refine ⟨Nat.zero_le _, Nat.le_of_lt hb.1, ?_, Nat.le_of_lt hb.2.1⟩
      show hdr.offset_meta ≤ hdr.offset_eof
      rw [he]
      exact hb.2.2

/-- Witness for the amended C7 at `exFileA` (which opens successfully). -/
theorem c7_offset_chain_amended_witness :
    openIKC exFileA = .ok rdrA ∧
      (0 ≤ rdrA.offset_data ∧ rdrA.offset_data ≤ rdrA.offset_meta ∧
        rdrA.offset_meta ≤ rdrA.offset_eof ∧ rdrA.offset_index ≤ rdrA.offset_meta) :=
  ⟨rfl, c7_offset_chain_amended exFileA rdrA rfl⟩


/-! ## C9 -/

/-- The source's guarded update `if a < m then a else m` is the minimum. -/
theorem ite_lt_eq_min (a m : Nat) : (if a < m then a else m) = Nat.min m a := by
  rcases Nat.lt_or_ge a m with hl | hg
  · simp [hl, Nat.min_eq_right (Nat.le_of_lt hl)]
  · simp [Nat.not_lt.mpr hg, Nat.min_eq_left hg]

/-- The minimizer loop folds the minimum over the candidates of the
substrings at offsets `1 .. cnt`. -/
theorem minimizerLoop_eq_foldl (km : Nat) :
    ∀ (cnt kmer m : Nat),
      minimizerLoop km cnt kmer m =
        List.foldl Nat.min m
          ((List.range cnt).map (fun i => subCand km (kmer >>> (2 * (i + 1)))))
  | 0, kmer, m => rfl
  | cnt + 1, kmer, m => by
    rw [minimizerLoop]
    rw [minimizerLoop_eq_foldl km cnt (kmer >>> 2)]
    rw [List.range_succ_eq_map, List.map_cons, List.foldl_cons, List.map_map]
    rw [ite_lt_eq_min, ite_lt_eq_min]
    have hmaps : ((List.range cnt).map
        (fun i => subCand km ((kmer >>> 2) >>> (2 * (i + 1))))) =
        (List.range cnt).map ((fun i => subCand km (kmer >>> (2 * (i + 1)))) ∘ Nat.succ) := by
      apply List.map_congr_left
      intro a _
      simp only [Function.comp]
      rw [← Nat.shiftRight_add]
      congr 2
      omega
    rw [hmaps]
    congr 1
    simp only [subCand]
    have h201 : kmer >>> (2 * (0 + 1)) = kmer >>> 2 := by norm_num
    rw [h201]
    exact Nat.min_assoc m _ _

/-- Folding the minimum over an interleaved substring/reverse-complement list
equals folding over the per-substring minima. -/
theorem foldl_min_flatMap_pair (f g : Nat → Nat) :
    ∀ (xs : List Nat) (m : Nat),
      List.foldl Nat.min m (xs.flatMap (fun x => [f x, g x])) =
        List.foldl Nat.min m (xs.map (fun x => Nat.min (f x) (g x)))
  | [], _ => rfl
  | x :: xs, m => by
    rw [List.flatMap_cons, List.map_cons, List.foldl_cons, List.foldl_append,
      List.foldl_cons, List.foldl_cons, List.foldl_nil]
    rw [foldl_min_flatMap_pair f g xs]
    congr 1
    exact Nat.min_assoc m _ _

/-- The spec's minimizer is the fold of the per-substring candidates. -/
theorem minimizerSpec_eq_foldl (k km kmer : Nat) :
    minimizerSpec k km kmer =
      List.foldl Nat.min (subCand km kmer)
        ((List.range (k - km)).map (fun i => subCand km (kmer >>> (2 * (i + 1))))) := by
  unfold minimizerSpec
  rw [List.range_succ_eq_map, List.flatMap_cons]
  simp only [List.cons_append, List.nil_append]
  rw [List.min?_cons']
  simp only [Option.getD_some, List.foldl_cons]
  rw [foldl_min_flatMap_pair
    (fun i => (kmer >>> (2 * i)) &&& kMask km)
    (fun i => rev_complement km ((kmer >>> (2 * i)) &&& kMask km))]
  rw [List.map_map]
  congr 1

/-- C9: confirmed.  With a configured minimizer size the code's `minimizer`
equals the spec's minimum over all overlapping substrings and their reverse
complements, and with `k_min_size = 0` it fails with the
minimizer-not-configured error for every input. -/
theorem c9_minimizer_spec :
    ∀ (k km kmer : Nat),
      (0 < km → km ≤ k → kmer < 4 ^ k →
        minimizer k km kmer = .ok (minimizerSpec k km kmer)) ∧
      (km = 0 → minimizer k km kmer = .error .minimizerNotConfigured) := by
  intro k km kmer
  constructor
  · intro hkm hkk hlt
    rw [minimizer, if_neg (by omega)]
    simp only []
    rw [minimizerLoop_eq_foldl, ite_lt_eq_min, minimizerSpec_eq_foldl]
    rfl
  · intro h0
    rw [minimizer, if_pos h0]

/-- Witness for C9 at `k_size=4`, `k_min_size=2`, `kmer = 0b11100100`. -/
theorem c9_minimizer_spec_witness :
    minimizer 4 2 228 = .ok (minimizerSpec 4 2 228) ∧
      minimizer 4 0 228 = .error .minimizerNotConfigured :=
  ⟨(c9_minimizer_spec 4 2 228).1 (by decide) (by decide) (by decide),
   (c9_minimizer_spec 4 0 228).2 rfl⟩


/-! ## C8 -/

/-- Two-bit codes are below 4. -/
theorem BASE_TO_INT_lt (c : Char) (v : Nat) (h : BASE_TO_INT c = some v) : v < 4 := by
  unfold BASE_TO_INT at h
  split at h <;> first
    | (injection h with hv; omega)
    | exact Option.noConfusion h

/-- Oring a two-bit code into a number with clear low bits is addition. -/
theorem four_mul_lor_eq_add (b v : Nat) (hv : v < 4) : 4 * b ||| v = 4 * b + v := by
  apply Nat.eq_of_testBit_eq
  intro i
  have h4 : 4 * b = 2 ^ 2 * b := by ring
  rw [Nat.testBit_lor, h4, Nat.testBit_mul_pow_two_add b (show v < 2 ^ 2 from hv) i,
    Nat.testBit_mul_pow_two]
  rcases Nat.lt_or_ge i 2 with hi | hi
  · rw [if_pos hi]
    have hd : decide (i ≥ 2) = false := by
      simp only [decide_eq_false_iff_not]
      omega
    rw [hd, Bool.false_and, Bool.false_or]
  · rw [if_neg (Nat.not_lt.mpr hi)]
    have hd : decide (i ≥ 2) = true := by
      simp only [decide_eq_true_eq]
      omega
    have hpw : (4 : Nat) ≤ 2 ^ i := by
      have h22 : (4 : Nat) = 2 ^ 2 := by norm_num
      rw [h22]
      exact Nat.pow_le_pow_right (by omega) hi
    have hv' : v.testBit i = false :=
      Nat.testBit_lt_two_pow (Nat.lt_of_lt_of_le hv hpw)
    rw [hd, Bool.true_and, hv', Bool.or_false]

/-- `to_kmer`'s loop computes the Horner value when every character is a
valid base. -/
theorem toKmerAux_eq (s : List Char) :
    ∀ b : Nat, (∀ c ∈ s, (BASE_TO_INT c).isSome = true) →
      toKmerAux s (4 * b) = .ok (kmerVal s b) := by
  induction s with
  | nil =>
    intro b _
    show Except.ok ((4 * b) >>> 2) = .ok (kmerVal [] b)
    have : (4 * b) >>> 2 = b := by
      rw [Nat.shiftRight_eq_div_pow]
      omega
    rw [this]
    rfl
  | cons c cs ih =>
    intro b hall
    have hsome : (BASE_TO_INT c).isSome = true := hall c (List.mem_cons_self c cs)
    obtain ⟨v, hv⟩ := Option.isSome_iff_exists.mp hsome
    rw [toKmerAux, hv]
    have hv4 : v < 4 := BASE_TO_INT_lt c v hv
    have harg : (4 * b ||| v) <<< 2 = 4 * (4 * b + v) := by
      rw [four_mul_lor_eq_add b v hv4, Nat.shiftLeft_eq]
      ring
    show toKmerAux cs ((4 * b ||| v) <<< 2) = .ok (kmerVal (c :: cs) b)
    rw [harg, ih (4 * b + v) (fun x hx => hall x (List.mem_cons_of_mem c hx))]
    rw [kmerVal, hv]
    rfl

/-- Prepending to the string multiplies the Horner start value in. -/
theorem kmerVal_split (s : List Char) :
    ∀ b : Nat, kmerVal s b = b * 2 ^ (2 * s.length) + kmerVal s 0 := by
  induction s with
  | nil => intro b; simp [kmerVal]
  | cons c cs ih =>
    intro b
    rw [kmerVal, kmerVal, ih (4 * b + (BASE_TO_INT c).getD 0),
      ih (4 * 0 + (BASE_TO_INT c).getD 0)]
    have hlen : 2 * (c :: cs).length = 2 * cs.length + 2 := by
      simp [List.length_cons]
      ring
    rw [hlen, Nat.pow_add]
    ring

/-- The Horner value of a string is below `4 ^ length`. -/
theorem kmerVal_lt (s : List Char) : kmerVal s 0 < 2 ^ (2 * s.length) := by
  induction s with
  | nil => simp [kmerVal]
  | cons c cs ih =>
    rw [kmerVal, kmerVal_split]
    have hc : (BASE_TO_INT c).getD 0 < 4 := by
      cases hb : BASE_TO_INT c with
      | none => simp
      | some v => simpa using BASE_TO_INT_lt c v hb
    have hlen : 2 * (c :: cs).length = 2 * cs.length + 2 := by
      simp [List.length_cons]
      ring
    rw [hlen, Nat.pow_add]
    have h2 : (2 : Nat) ^ 2 = 4 := by norm_num
    nlinarith [ih, Nat.pos_pow_of_pos (2 * cs.length) (show 0 < 2 by omega)]

/-- Shifting the k-mer mask right by one base gives the next smaller mask. -/
theorem kMask_shiftRight (n : Nat) : kMask (n + 1) >>> 2 = kMask n := by
  unfold kMask
  rw [Nat.shiftRight_eq_div_pow]
  have h : 2 ^ (2 * (n + 1)) = 2 ^ (2 * n) * 4 := by
    rw [show 2 * (n + 1) = 2 * n + 2 by ring, Nat.pow_add]
  have h2 : (2 : Nat) ^ 2 = 4 := by norm_num
  rw [h, h2]
  have hpos : 0 < 2 ^ (2 * n) := Nat.pos_pow_of_pos _ (by omega)
  omega

/-- `to_string`'s loop only depends on the low `2 * cnt` bits of the k-mer. -/
theorem toStringAux_mod (cnt : Nat) :
    ∀ a b : Nat, a % 2 ^ (2 * cnt) = b % 2 ^ (2 * cnt) →
      toStringAux a cnt (kMask cnt) (2 * cnt - 2) =
        toStringAux b cnt (kMask cnt) (2 * cnt - 2) := by
  induction cnt with
  | zero => intro a b _; rfl
  | succ n ih =>
    intro a b hmod
    rw [toStringAux, toStringAux]
    congr 1
    · congr 1
      have ha : a &&& kMask (n + 1) = a % 2 ^ (2 * (n + 1)) := by
        simp only [kMask]
        exact Nat.and_pow_two_sub_one_eq_mod a _
      have hb : b &&& kMask (n + 1) = b % 2 ^ (2 * (n + 1)) := by
        simp only [kMask]
        exact Nat.and_pow_two_sub_one_eq_mod b _
      rw [ha, hb, hmod]
    · rw [kMask_shiftRight]
      have hsh : 2 * (n + 1) - 2 - 2 = 2 * n - 2 := by omega
      rw [hsh]
      apply ih
      have hd : (2 : Nat) ^ (2 * n) ∣ 2 ^ (2 * (n + 1)) := Nat.pow_dvd_pow 2 (by omega)
      calc a % 2 ^ (2 * n) = a % 2 ^ (2 * (n + 1)) % 2 ^ (2 * n) :=
            (Nat.mod_mod_of_dvd a hd).symm
        _ = b % 2 ^ (2 * (n + 1)) % 2 ^ (2 * n) := by rw [hmod]
        _ = b % 2 ^ (2 * n) := Nat.mod_mod_of_dvd b hd

/-- Decoding the Horner value of an uppercase base string gives the string
back. -/
theorem to_string_kmerVal (s : List Char)
    (hup : ∀ c ∈ s, c = 'A' ∨ c = 'C' ∨ c = 'G' ∨ c = 'T') :
    to_string s.length (kmerVal s 0) = s := by
  induction s with
  | nil => rfl
  | cons c cs ih =>
    have hup' : ∀ x ∈ cs, x = 'A' ∨ x = 'C' ∨ x = 'G' ∨ x = 'T' :=
      fun x hx => hup x (List.mem_cons_of_mem c hx)
    have hcup := hup c (List.mem_cons_self c cs)
    have hcode : (BASE_TO_INT c).getD 0 < 4 := by
      rcases hcup with h | h | h | h <;> subst h <;> decide
    have hsplit : kmerVal (c :: cs) 0 =
        (BASE_TO_INT c).getD 0 * 2 ^ (2 * cs.length) + kmerVal cs 0 := by
      rw [kmerVal, kmerVal_split]
      norm_num
    have hrest := kmerVal_lt cs
    show to_string (cs.length + 1) (kmerVal (c :: cs) 0) = c :: cs
    unfold to_string
    rw [toStringAux]
    congr 1
    · have hvlt : kmerVal (c :: cs) 0 < 2 ^ (2 * (cs.length + 1)) := by
        rw [hsplit, show 2 * (cs.length + 1) = 2 * cs.length + 2 by ring, Nat.pow_add]
        nlinarith [Nat.pos_pow_of_pos (2 * cs.length) (show 0 < 2 by omega)]
      have hand : kmerVal (c :: cs) 0 &&& kMask (cs.length + 1) = kmerVal (c :: cs) 0 := by
        simp only [kMask]
        rw [Nat.and_pow_two_sub_one_eq_mod]
        exact Nat.mod_eq_of_lt hvlt
      rw [hand, show 2 * (cs.length + 1) - 2 = 2 * cs.length by omega]
      rw [Nat.shiftRight_eq_div_pow, hsplit]
      rw [Nat.mul_comm ((BASE_TO_INT c).getD 0) (2 ^ (2 * cs.length))]
      rw [Nat.mul_add_div (Nat.pos_pow_of_pos _ (by omega))]
      rw [Nat.div_eq_of_lt hrest, Nat.add_zero]
      rcases hcup with h | h | h | h <;> subst h <;> rfl
    · rw [kMask_shiftRight, show 2 * (cs.length + 1) - 2 - 2 = 2 * cs.length - 2 by omega]
      have hcongr : toStringAux (kmerVal (c :: cs) 0) cs.length (kMask cs.length)
          (2 * cs.length - 2) =
          toStringAux (kmerVal cs 0) cs.length (kMask cs.length) (2 * cs.length - 2) := by
        apply toStringAux_mod
        rw [hsplit, Nat.mul_comm ((BASE_TO_INT c).getD 0) (2 ^ (2 * cs.length)),
          Nat.mul_add_mod]
      rw [hcongr]
      exact ih hup'

/-- C8 amended: the round trip holds for strings of uppercase bases; `to_kmer`
accepts lowercase bases with identical codes, but `to_string` always decodes
to uppercase, so the round trip normalises case rather than preserving it. -/
theorem c8_roundtrip_uppercase (k : Nat) (s : List Char)
    (hlen : s.length = k)
    (hup : ∀ c ∈ s, c = 'A' ∨ c = 'C' ∨ c = 'G' ∨ c = 'T') :
    (to_kmer k s).map (to_string k) = .ok s := by
  subst hlen
  unfold to_kmer
  rw [if_neg (by simp)]
  have hvalid : ∀ c ∈ s, (BASE_TO_INT c).isSome = true := by
    intro c hc
    rcases hup c hc with h | h | h | h <;> subst h <;> rfl
  have h0 : toKmerAux s 0 = .ok (kmerVal s 0) := by
    have hh := toKmerAux_eq s 0 hvalid
    simpa using hh
  rw [h0]
  show Except.ok (to_string s.length (kmerVal s 0)) = .ok s
  rw [to_string_kmerVal s hup]

/-- C8: refuted as stated.  The lowercase valid base string "ac" round-trips
to "AC", not to itself. -/
theorem c8_roundtrip_counterexample :
    (to_kmer 2 ['a', 'c']).map (to_string 2) = .ok ['A', 'C'] ∧
      (['A', 'C'] : List Char) ≠ ['a', 'c'] :=
  ⟨rfl, by decide⟩

/-- Witness for the amended C8 at the uppercase string "GATC". -/
theorem c8_roundtrip_uppercase_witness :
    (to_kmer 4 ['G', 'A', 'T', 'C']).map (to_string 4) = .ok ['G', 'A', 'T', 'C'] :=
  c8_roundtrip_uppercase 4 ['G', 'A', 'T', 'C'] (by decide) (by decide)
